import Mathlib

set_option linter.unusedVariables false

/-!
Shallow embedding of `scripts/extract_frames.py`, a keyframe extractor:
`calculate_frame_difference` scores the mean absolute luminance change
between two frames on a 0–100 scale, and `extract_key_frames` runs a
single sequential selection loop over the decoded frames, emitting one
record per selected frame.  Side effects (directory creation, opening
the capture, image writes, scorer invocations, selections, handle
release) are recorded in an event trace so that resource and ordering
properties can be stated.
-/

/-- A pixel is a BGR triple of 8-bit channel values. -/
abbrev Pixel : Type := Fin 256 × Fin 256 × Fin 256

/-- A decoded frame: a flat list of BGR pixels. -/
abbrev Frame : Type := List Pixel

/-- OpenCV's fixed-point BGR→gray conversion: coefficients 1868 (B),
9617 (G), 4899 (R) summing to 2^14, rounded by adding 2^13 and
shifting right by 14. -/
def bgr2gray (p : Pixel) : Nat :=
  (1868 * p.1.val + 9617 * p.2.1.val + 4899 * p.2.2.val + 8192) / 16384

/-- `cv2.absdiff` on two gray values. -/
def absdiff (a b : Nat) : Nat := max a b - min a b

/-- `calculate_frame_difference(frame1, frame2)`: convert both frames to
gray, take the per-pixel absolute difference, average it, and rescale
from 0–255 to 0–100.  Real arithmetic is modelled exactly over ℚ. -/
def calculate_frame_difference (frame1 frame2 : Frame) : ℚ :=
  let gray1 := frame1.map bgr2gray
  let gray2 := frame2.map bgr2gray
  let diff := List.zipWith absdiff gray1 gray2
  let mean_diff : ℚ := ((diff.sum : ℚ) / (diff.length : ℚ))
  mean_diff / 255 * 100

/-- Python's `int()` on a float/rational: truncation toward zero. -/
def pyInt (q : ℚ) : ℤ := if 0 ≤ q then ⌊q⌋ else ⌈q⌉

/-- Zero-padded 6-digit decimal rendering, as in `f"{n:06d}"`. -/
def zeroPad6 (n : Nat) : String :=
  let s := toString n
  String.mk (List.replicate (6 - s.length) '0') ++ s

/-- The saved image name `frame_{frame_count:06d}.jpg`. -/
def frameFilename (n : Nat) : String := "frame_" ++ zeroPad6 n ++ ".jpg"

/-- One entry of the returned list: the dict
`{"frame_number", "timestamp", "filename", "diff_score"}`. -/
structure SelRecord where
  frame_number : Nat
  timestamp : ℤ
  filename : String
  diff_score : ℤ
deriving DecidableEq

/-- Exceptions the script can raise: the explicit `raise` when the
capture is not opened, and Python's `ZeroDivisionError` from
`frame_count / fps` when `fps = 0`. -/
inductive PyErr where
  | cannotOpen
  | zeroDivision
deriving DecidableEq

/-- Observable side effects of a run, in program order. -/
inductive Event where
  | makedirs
  | openVideo
  | release
  | imwrite (n : Nat)
  | score (baseline : Frame) (idx : Nat)
  | emit (n : Nat)
deriving DecidableEq

/-- The video source as seen through `cv2.VideoCapture`: whether it
opens, the reported fps, and the sequence of frames `cap.read()`
yields before returning `ret = False`. -/
structure Video where
  opened : Bool
  fps : ℚ
  frames : List Frame

/-- The selection policy parameters of `extract_key_frames`. -/
structure Params where
  threshold : ℚ
  min_interval : ℤ
  max_frames : ℤ

/-- The mutable state of the while loop. -/
structure LoopState where
  extracted : List SelRecord
  prev : Option Frame
  frame_count : Nat
  last_extracted : ℤ

/-- The `while True` loop of `extract_key_frames`, one constructor case
per `cap.read()` outcome.  The record's timestamp is
`int((frame_count / fps) * 1000)`; Python float division raises
`ZeroDivisionError` when `fps = 0` (even for `0 / 0.0`), after the
image write but before the record is appended.  Returns the result
(the extracted list, or the first exception raised) together with the
event trace of the loop body. -/
def selLoop (fps threshold : ℚ) (min_interval max_frames : ℤ) :
    List Frame → LoopState → Except PyErr (List SelRecord) × List Event
  | [], s => (.ok s.extracted, [])
  | f :: rest, s =>
    if s.frame_count = 0 then
      -- first frame: imwrite, then build the record (timestamp divides by fps)
      if fps = 0 then (.error .zeroDivision, [.imwrite s.frame_count])
      else
        let r : SelRecord :=
          ⟨s.frame_count, pyInt ((s.frame_count : ℚ) / fps * 1000),
           frameFilename s.frame_count, 0⟩
        let out := selLoop fps threshold min_interval max_frames rest
          ⟨s.extracted ++ [r], some f, s.frame_count + 1, (s.frame_count : ℤ)⟩
        (out.1, .imwrite s.frame_count :: .emit s.frame_count :: out.2)
    else if (s.frame_count : ℤ) - s.last_extracted < min_interval then
      -- minimum-interval check: skip without scoring
      selLoop fps threshold min_interval max_frames rest
        ⟨s.extracted, s.prev, s.frame_count + 1, s.last_extracted⟩
    else
      let b := s.prev.getD []
      let diff_score := calculate_frame_difference b f
      if threshold ≤ diff_score then
        if fps = 0 then
          (.error .zeroDivision, [.score b s.frame_count, .imwrite s.frame_count])
        else
          let r : SelRecord :=
            ⟨s.frame_count, pyInt ((s.frame_count : ℚ) / fps * 1000),
             frameFilename s.frame_count, pyInt diff_score⟩
          let ex := s.extracted ++ [r]
          if max_frames ≤ (ex.length : ℤ) then
            -- max frame count reached: break out of the loop
            (.ok ex, [.score b s.frame_count, .imwrite s.frame_count,
                      .emit s.frame_count])
          else
            let out := selLoop fps threshold min_interval max_frames rest
              ⟨ex, some f, s.frame_count + 1, (s.frame_count : ℤ)⟩
            (out.1, .score b s.frame_count :: .imwrite s.frame_count ::
                    .emit s.frame_count :: out.2)
      else
        let out := selLoop fps threshold min_interval max_frames rest
          ⟨s.extracted, s.prev, s.frame_count + 1, s.last_extracted⟩
        (out.1, .score b s.frame_count :: out.2)

/-- `extract_key_frames(video_path, output_dir, threshold, min_interval,
max_frames)`: create the output directory, open the capture (raising if
it is not opened), run the selection loop from the initial state
(`extracted_frames = []`, `prev_frame = None`, `frame_count = 0`,
`last_extracted_frame = -min_interval`), and release the capture after
the loop.  `cap.release()` sits after the loop with no try/finally, so
it runs only when no exception is raised. -/
def extract_key_frames (v : Video) (P : Params) :
    Except PyErr (List SelRecord) × List Event :=
  if v.opened then
    let out := selLoop v.fps P.threshold P.min_interval P.max_frames v.frames
      ⟨[], none, 0, -P.min_interval⟩
    match out.1 with
    | .ok l => (.ok l, .makedirs :: .openVideo :: (out.2 ++ [.release]))
    | .error e => (.error e, .makedirs :: .openVideo :: out.2)
  else
    (.error .cannotOpen, [.makedirs, .openVideo])

/-- `main` after argument parsing: on success it prints the JSON record
list and exits 0; on any exception it prints a diagnostic and exits 1.
Modelled as the emitted JSON payload (if any) and the exit status. -/
def mainRun (v : Video) (P : Params) : Option (List SelRecord) × Nat :=
  match (extract_key_frames v P).1 with
  | .ok l => (some l, 0)
  | .error _ => (none, 1)

/-- Number of `release` events in a trace. -/
def countRelease : List Event → Nat
  | [] => 0
  | .release :: t => countRelease t + 1
  | _ :: t => countRelease t

/-- Trace check: every `score` event's baseline argument equals the
frame of the most recent `emit` before it (`cur` is the baseline in
force at the head of the trace). -/
def baselineChk (frames : List Frame) : Frame → List Event → Bool
  | _, [] => true
  | cur, .score b _ :: t => decide (b = cur) && baselineChk frames cur t
  | _, .emit n :: t => baselineChk frames (frames.getD n []) t
  | cur, _ :: t => baselineChk frames cur t

/-- Trace check: every `score` event's frame index is at least
`min_interval` past the most recent `emit` before it (`last` is the
last-selected index in force at the head of the trace). -/
def spacingChk (minI : ℤ) : ℤ → List Event → Bool
  | _, [] => true
  | last, .score _ i :: t => decide (minI ≤ (i : ℤ) - last) && spacingChk minI last t
  | _, .emit n :: t => spacingChk minI (n : ℤ) t
  | last, _ :: t => spacingChk minI last t

/-! ### Arithmetic facts about the difference scorer -/

theorem bgr2gray_le (p : Pixel) : bgr2gray p ≤ 255 := by
  have h : (1868 * p.1.val + 9617 * p.2.1.val + 4899 * p.2.2.val + 8192) / 16384
      < 256 := by
    rw [Nat.div_lt_iff_lt_mul (by norm_num)]
    have hb := p.1.isLt
    have hg := p.2.1.isLt
    have hr := p.2.2.isLt
    omega
  unfold bgr2gray
  omega

theorem absdiff_le {a b : Nat} (ha : a ≤ 255) (hb : b ≤ 255) : absdiff a b ≤ 255 := by
  unfold absdiff
  omega

theorem absdiff_comm (a b : Nat) : absdiff a b = absdiff b a := by
  unfold absdiff
  rw [Nat.max_comm, Nat.min_comm]

theorem absdiff_self (a : Nat) : absdiff a a = 0 := by
  unfold absdiff
  omega

theorem sum_le_mul_length (l : List ℕ) (h : ∀ x ∈ l, x ≤ 255) :
    l.sum ≤ 255 * l.length := by
  induction l with
  | nil => simp
  | cons a t ih =>
    have ha := h a (by simp)
    have ht := ih (fun x hx => h x (by simp [hx]))
    simp only [List.sum_cons, List.length_cons]
    omega

theorem zipWith_absdiff_le (l1 l2 : List ℕ) (h1 : ∀ x ∈ l1, x ≤ 255)
    (h2 : ∀ x ∈ l2, x ≤ 255) :
    ∀ x ∈ List.zipWith absdiff l1 l2, x ≤ 255 := by
  induction l1 generalizing l2 with
  | nil => simp
  | cons a t ih =>
    cases l2 with
    | nil => simp
    | cons b u =>
      intro x hx
      rcases List.mem_cons.mp hx with h | h
      · subst h
        exact absdiff_le (h1 a (by simp)) (h2 b (by simp))
      · exact ih u (fun y hy => h1 y (by simp [hy])) (fun y hy => h2 y (by simp [hy])) x h

theorem calculate_frame_difference_nonneg (f1 f2 : Frame) :
    0 ≤ calculate_frame_difference f1 f2 := by
  unfold calculate_frame_difference
  have h1 : (0 : ℚ) ≤ ((List.zipWith absdiff (f1.map bgr2gray) (f2.map bgr2gray)).sum : ℚ) := by
    exact_mod_cast Nat.zero_le _
  have h2 : (0 : ℚ) ≤ ((List.zipWith absdiff (f1.map bgr2gray) (f2.map bgr2gray)).length : ℚ) := by
    exact_mod_cast Nat.zero_le _
  have := div_nonneg (div_nonneg h1 h2) (by norm_num : (0:ℚ) ≤ 255)
  nlinarith

theorem calculate_frame_difference_le_100 (f1 f2 : Frame) :
    calculate_frame_difference f1 f2 ≤ 100 := by
  unfold calculate_frame_difference
  have hbound : ∀ x ∈ List.zipWith absdiff (f1.map bgr2gray) (f2.map bgr2gray), x ≤ 255 :=
    zipWith_absdiff_le _ _
      (by intro x hx; rcases List.mem_map.mp hx with ⟨p, _, rfl⟩; exact bgr2gray_le p)
      (by intro x hx; rcases List.mem_map.mp hx with ⟨p, _, rfl⟩; exact bgr2gray_le p)
  set d := List.zipWith absdiff (f1.map bgr2gray) (f2.map bgr2gray) with hd
  have hmean : (d.sum : ℚ) / (d.length : ℚ) ≤ 255 := by
    rcases Nat.eq_zero_or_pos d.length with h0 | hpos
    · rw [h0]
      norm_num
    · rw [div_le_iff₀ (by exact_mod_cast hpos)]
      have hs := sum_le_mul_length d hbound
      exact_mod_cast hs
  linarith

theorem calculate_frame_difference_self (f : Frame) :
    calculate_frame_difference f f = 0 := by
  have h : ∀ l : List ℕ, List.zipWith absdiff l l = List.replicate l.length 0 := by
    intro l
    induction l with
    | nil => simp
    | cons a t ih => simp [absdiff_self, ih, List.replicate_succ]
  simp only [calculate_frame_difference, h]
  simp

theorem calculate_frame_difference_comm (f1 f2 : Frame) :
    calculate_frame_difference f1 f2 = calculate_frame_difference f2 f1 := by
  have h : ∀ l1 l2 : List ℕ, List.zipWith absdiff l1 l2 = List.zipWith absdiff l2 l1 := by
    intro l1 l2
    induction l1 generalizing l2 with
    | nil => cases l2 <;> simp
    | cons a t ih =>
      cases l2 with
      | nil => simp
      | cons b u => simp [absdiff_comm, ih]
  simp only [calculate_frame_difference]
  rw [h]

/-- `int()` agrees with the floor on nonnegative values. -/
theorem pyInt_eq_floor_of_nonneg {q : ℚ} (h : 0 ≤ q) : pyInt q = ⌊q⌋ := by
  simp [pyInt, h]

theorem pyInt_bounds {q : ℚ} (h0 : 0 ≤ q) (h1 : q ≤ 100) :
    0 ≤ pyInt q ∧ pyInt q ≤ 100 := by
  rw [pyInt_eq_floor_of_nonneg h0]
  constructor
  · exact Int.le_floor.mpr (by exact_mod_cast h0)
  · have := Int.floor_le_floor h1
    simpa using this

/-! ### Structural lemmas about the selection loop -/

theorem selLoop_no_release (fps threshold : ℚ) (minI maxF : ℤ) :
    ∀ (rest : List Frame) (s : LoopState),
      countRelease (selLoop fps threshold minI maxF rest s).2 = 0 := by
  intro rest
  induction rest with
  | nil => intro s; simp [selLoop, countRelease]
  | cons f t ih =>
    intro s
    simp only [selLoop]
    repeat' split
    all_goals simp [countRelease, ih]

theorem selLoop_ok_extends (fps threshold : ℚ) (minI maxF : ℤ) :
    ∀ (rest : List Frame) (s : LoopState) (l : List SelRecord),
      (selLoop fps threshold minI maxF rest s).1 = .ok l →
      ∃ suf, l = s.extracted ++ suf := by
  intro rest
  induction rest with
  | nil =>
    intro s l h
    simp [selLoop] at h
    exact ⟨[], by simp [h]⟩
  | cons f t ih =>
    intro s l h
    simp only [selLoop] at h
    split at h
    · split at h
      · simp at h
      · simp only at h
        obtain ⟨suf, hsuf⟩ := ih _ _ h
        exact ⟨_ :: suf, by simpa using hsuf⟩
    · split at h
      · obtain ⟨suf, hsuf⟩ := ih _ _ h
        exact ⟨suf, hsuf⟩
      · split at h
        · split at h
          · simp at h
          · split at h
            · exact ⟨_, (Except.ok.inj h).symm⟩
            · simp only at h
              obtain ⟨suf, hsuf⟩ := ih _ _ h
              exact ⟨_ :: suf, by simpa using hsuf⟩
        · simp only at h
          obtain ⟨suf, hsuf⟩ := ih _ _ h
          exact ⟨suf, hsuf⟩

theorem selLoop_ok_of_fps_ne (fps threshold : ℚ) (minI maxF : ℤ) (hfps : fps ≠ 0) :
    ∀ (rest : List Frame) (s : LoopState),
      ∃ l, (selLoop fps threshold minI maxF rest s).1 = .ok l := by
  intro rest
  induction rest with
  | nil => intro s; exact ⟨s.extracted, rfl⟩
  | cons f t ih =>
    intro s
    simp only [selLoop]
    repeat' split
    all_goals first
      | exact ih _
      | exact ⟨_, rfl⟩

theorem selLoop_event_idx_ge (fps threshold : ℚ) (minI maxF : ℤ) :
    ∀ (rest : List Frame) (s : LoopState),
      (∀ b i, Event.score b i ∈ (selLoop fps threshold minI maxF rest s).2 →
        s.frame_count ≤ i) ∧
      (∀ n, Event.emit n ∈ (selLoop fps threshold minI maxF rest s).2 →
        s.frame_count ≤ n) := by
  intro rest
  induction rest with
  | nil => intro s; simp [selLoop]
  | cons f t ih =>
    intro s
    constructor
    · intro b i hmem
      simp only [selLoop] at hmem
      split at hmem
      · split at hmem
        · simp at hmem
        · simp only [List.mem_cons] at hmem
          rcases hmem with h | h | h
          · simp at h
          · simp at h
          · have := (ih _).1 b i h
            simp only at this
            omega
      · split at hmem
        · have := (ih _).1 b i hmem
          simp only at this
          omega
        · split at hmem
          · split at hmem
            · simp only [List.mem_cons] at hmem
              rcases hmem with h | h
              · exact le_of_eq (Event.score.inj h).2.symm
              · simp at h
            · split at hmem
              · simp only [List.mem_cons] at hmem
                rcases hmem with h | h | h | h
                · exact le_of_eq ((Event.score.inj h).2.symm)
                · simp at h
                · simp at h
                · simp at h
              · simp only [List.mem_cons] at hmem
                rcases hmem with h | h | h | h
                · exact le_of_eq ((Event.score.inj h).2.symm)
                · simp at h
                · simp at h
                · have := (ih _).1 b i h
                  simp only at this
                  omega
          · simp only [List.mem_cons] at hmem
            rcases hmem with h | h
            · exact le_of_eq ((Event.score.inj h).2.symm)
            · have := (ih _).1 b i h
              simp only at this
              omega
    · intro n hmem
      simp only [selLoop] at hmem
      split at hmem
      · split at hmem
        · simp at hmem
        · simp only [List.mem_cons] at hmem
          rcases hmem with h | h | h
          · simp at h
          · exact le_of_eq (Event.emit.inj h).symm
          · have := (ih _).2 n h
            simp only at this
            omega
      · split at hmem
        · have := (ih _).2 n hmem
          simp only at this
          omega
        · split at hmem
          · split at hmem
            · simp at hmem
            · split at hmem
              · simp only [List.mem_cons] at hmem
                rcases hmem with h | h | h | h
                · simp at h
                · simp at h
                · exact le_of_eq (Event.emit.inj h).symm
                · simp at h
              · simp only [List.mem_cons] at hmem
                rcases hmem with h | h | h | h
                · simp at h
                · simp at h
                · exact le_of_eq (Event.emit.inj h).symm
                · have := (ih _).2 n h
                  simp only at this
                  omega
          · simp only [List.mem_cons] at hmem
            rcases hmem with h | h
            · simp at h
            · have := (ih _).2 n h
              simp only at this
              omega

theorem selLoop_ok_mem (fps threshold : ℚ) (minI maxF : ℤ) :
    ∀ (rest : List Frame) (s : LoopState) (l : List SelRecord),
      (selLoop fps threshold minI maxF rest s).1 = .ok l →
      ∀ r ∈ l, r ∈ s.extracted ∨ s.frame_count ≤ r.frame_number := by
  intro rest
  induction rest with
  | nil =>
    intro s l h r hr
    simp [selLoop] at h
    exact Or.inl (h ▸ hr)
  | cons f t ih =>
    intro s l h r hr
    simp only [selLoop] at h
    split at h
    · split at h
      · simp at h
      · rcases ih _ _ h r hr with hin | hge
        · rcases List.mem_append.mp hin with hold | hnew
          · exact Or.inl hold
          · simp only [List.mem_singleton] at hnew
            subst hnew
            exact Or.inr (le_refl _)
        · simp only at hge
          exact Or.inr (by omega)
    · split at h
      · rcases ih _ _ h r hr with hin | hge
        · exact Or.inl hin
        · simp only at hge
          exact Or.inr (by omega)
      · split at h
        · split at h
          · simp at h
          · split at h
            · have hl := Except.ok.inj h
              subst hl
              rcases List.mem_append.mp hr with hold | hnew
              · exact Or.inl hold
              · simp only [List.mem_singleton] at hnew
                subst hnew
                exact Or.inr (le_refl _)
            · rcases ih _ _ h r hr with hin | hge
              · rcases List.mem_append.mp hin with hold | hnew
                · exact Or.inl hold
                · simp only [List.mem_singleton] at hnew
                  subst hnew
                  exact Or.inr (le_refl _)
              · simp only at hge
                exact Or.inr (by omega)
        · rcases ih _ _ h r hr with hin | hge
          · exact Or.inl hin
          · simp only at hge
            exact Or.inr (by omega)

theorem drop_cons_facts (F : List Frame) (n : Nat) (f : Frame) (rest : List Frame)
    (h : F.drop n = f :: rest) : F.getD n [] = f ∧ F.drop (n + 1) = rest := by
  have hlen : n < F.length := by
    by_contra hle
    rw [List.drop_eq_nil_of_le (by omega)] at h
    simp at h
  rw [List.drop_eq_getElem_cons hlen] at h
  obtain ⟨h1, h2⟩ := List.cons.inj h
  constructor
  · simp [List.getD_eq_getElem?_getD, List.getElem?_eq_getElem hlen, h1]
  · exact h2

theorem selLoop_baselineChk (fps threshold : ℚ) (minI maxF : ℤ) (F : List Frame) :
    ∀ (rest : List Frame) (s : LoopState),
      F.drop s.frame_count = rest →
      baselineChk F (s.prev.getD []) (selLoop fps threshold minI maxF rest s).2
        = true := by
  intro rest
  induction rest with
  | nil => intro s hdrop; simp [selLoop, baselineChk]
  | cons f t ih =>
    intro s hdrop
    obtain ⟨hget, hdrop1⟩ := drop_cons_facts F s.frame_count f t hdrop
    simp only [selLoop]
    split
    · split
      · simp [baselineChk]
      · rename_i hf
        simp only [baselineChk, hget]
        have := ih ⟨s.extracted ++ [⟨s.frame_count,
            pyInt ((s.frame_count : ℚ) / fps * 1000),
            frameFilename s.frame_count, 0⟩],
          some f, s.frame_count + 1, (s.frame_count : ℤ)⟩ hdrop1
        simpa using this
    · split
      · exact ih ⟨s.extracted, s.prev, s.frame_count + 1, s.last_extracted⟩ hdrop1
      · split
        · split
          · simp [baselineChk, hget]
          · rename_i hf
            split
            · simp [baselineChk, hget]
            · have := ih ⟨s.extracted ++ [⟨s.frame_count,
                  pyInt ((s.frame_count : ℚ) / fps * 1000),
                  frameFilename s.frame_count,
                  pyInt (calculate_frame_difference (s.prev.getD []) f)⟩],
                some f, s.frame_count + 1, (s.frame_count : ℤ)⟩ hdrop1
              simp at this
              have hget2 : (F[s.frame_count]?).getD [] = f := by
                simpa [List.getD_eq_getElem?_getD] using hget
              simp [baselineChk, hget2, this]
        · simp only [baselineChk]
          have := ih ⟨s.extracted, s.prev, s.frame_count + 1, s.last_extracted⟩ hdrop1
          simpa using this

theorem selLoop_spacingChk (fps threshold : ℚ) (minI maxF : ℤ) :
    ∀ (rest : List Frame) (s : LoopState),
      spacingChk minI s.last_extracted (selLoop fps threshold minI maxF rest s).2
        = true := by
  intro rest
  induction rest with
  | nil => intro s; simp [selLoop, spacingChk]
  | cons f t ih =>
    intro s
    simp only [selLoop]
    split
    · split
      · simp [spacingChk]
      · rename_i hf
        simp only [spacingChk]
        have := ih ⟨s.extracted ++ [⟨s.frame_count,
            pyInt ((s.frame_count : ℚ) / fps * 1000),
            frameFilename s.frame_count, 0⟩],
          some f, s.frame_count + 1, (s.frame_count : ℤ)⟩
        simpa using this
    · split
      · exact ih ⟨s.extracted, s.prev, s.frame_count + 1, s.last_extracted⟩
      · rename_i hne hcool
        have hgap : minI ≤ (s.frame_count : ℤ) - s.last_extracted := by omega
        split
        · split
          · simp [spacingChk, hgap]
          · rename_i hf
            split
            · simp [spacingChk, hgap]
            · have := ih ⟨s.extracted ++ [⟨s.frame_count,
                  pyInt ((s.frame_count : ℚ) / fps * 1000),
                  frameFilename s.frame_count,
                  pyInt (calculate_frame_difference (s.prev.getD []) f)⟩],
                some f, s.frame_count + 1, (s.frame_count : ℤ)⟩
              simp at this
              simp [spacingChk, hgap, this]
        · simp only [spacingChk]
          have := ih ⟨s.extracted, s.prev, s.frame_count + 1, s.last_extracted⟩
          simp only at this
          simp [hgap, this]

/-- The spacing relation between two consecutive selection records. -/
def recGap (minI : ℤ) (a b : SelRecord) : Prop :=
  minI ≤ (b.frame_number : ℤ) - (a.frame_number : ℤ)

instance (minI : ℤ) (a b : SelRecord) : Decidable (recGap minI a b) := by
  unfold recGap
  infer_instance

theorem selLoop_records (fps threshold : ℚ) (minI maxF : ℤ) :
    ∀ (rest : List Frame) (s : LoopState),
      List.Chain' (recGap minI) s.extracted →
      (∀ r ∈ s.extracted, 0 ≤ r.diff_score ∧ r.diff_score ≤ 100) →
      (∀ r0 ∈ s.extracted.head?, r0.frame_number = 0 ∧ r0.diff_score = 0) →
      (if s.frame_count = 0 then s.extracted = []
       else ∃ rl, s.extracted.getLast? = some rl ∧
         (rl.frame_number : ℤ) = s.last_extracted) →
      ∀ l, (selLoop fps threshold minI maxF rest s).1 = .ok l →
        List.Chain' (recGap minI) l ∧
        (∀ r ∈ l, 0 ≤ r.diff_score ∧ r.diff_score ≤ 100) ∧
        (∀ r0 ∈ l.head?, r0.frame_number = 0 ∧ r0.diff_score = 0) := by
  intro rest
  induction rest with
  | nil =>
    intro s hch hbd hhd hlast l h
    simp [selLoop] at h
    subst h
    exact ⟨hch, hbd, hhd⟩
  | cons f t ih =>
    intro s hch hbd hhd hlast l h
    simp only [selLoop] at h
    split at h
    · rename_i h0
      rw [if_pos h0] at hlast
      split at h
      · simp at h
      · rename_i hf
        refine ih _ ?_ ?_ ?_ ?_ l h
        · simp [hlast, List.chain'_singleton]
        · intro r hr
          simp [hlast] at hr
          subst hr
          simp
        · intro r0 hr0
          simp [hlast, h0] at hr0
          subst hr0
          simp [h0]
        · simp [hlast]
    · rename_i h0
      rw [if_neg h0] at hlast
      split at h
      · exact ih ⟨s.extracted, s.prev, s.frame_count + 1, s.last_extracted⟩
          hch hbd hhd (by simpa [h0] using hlast) l h
      · rename_i hcool
        split at h
        · rename_i hthr
          split at h
          · simp at h
          · rename_i hf
            have hds0 := calculate_frame_difference_nonneg (s.prev.getD []) f
            have hds1 := calculate_frame_difference_le_100 (s.prev.getD []) f
            have hnew : 0 ≤ pyInt (calculate_frame_difference (s.prev.getD []) f) ∧
                pyInt (calculate_frame_difference (s.prev.getD []) f) ≤ 100 :=
              pyInt_bounds hds0 hds1
            obtain ⟨rl, hrl, hrlv⟩ := hlast
            have hchain2 : List.Chain' (recGap minI)
                (s.extracted ++ [⟨s.frame_count, pyInt ((s.frame_count : ℚ) / fps * 1000), frameFilename s.frame_count,
                  pyInt (calculate_frame_difference (s.prev.getD []) f)⟩]) := by
              rw [List.chain'_append]
              refine ⟨hch, List.chain'_singleton _, ?_⟩
              intro x hx y hy
              simp [hrl] at hx
              simp at hy
              subst hx
              subst hy
              simp only [recGap]
              omega
            have hbd2 : ∀ r ∈ (s.extracted ++ [⟨s.frame_count, pyInt ((s.frame_count : ℚ) / fps * 1000),
                frameFilename s.frame_count,
                pyInt (calculate_frame_difference (s.prev.getD []) f)⟩]),
                0 ≤ r.diff_score ∧ r.diff_score ≤ 100 := by
              intro r hr
              rcases List.mem_append.mp hr with hr | hr
              · exact hbd r hr
              · simp at hr
                subst hr
                exact hnew
            have hhd2 : ∀ r0 ∈ (s.extracted ++ [(⟨s.frame_count, pyInt ((s.frame_count : ℚ) / fps * 1000),
                frameFilename s.frame_count,
                pyInt (calculate_frame_difference (s.prev.getD []) f)⟩ : SelRecord)]).head?,
                r0.frame_number = 0 ∧ r0.diff_score = 0 := by
              cases hx : s.extracted with
              | nil => rw [hx] at hrl; simp at hrl
              | cons a u =>
                intro r0 hr0
                simp at hr0
                subst hr0
                exact hhd _ (by rw [hx]; rfl)
            split at h
            · have hl := Except.ok.inj h
              subst hl
              exact ⟨hchain2, hbd2, hhd2⟩
            · refine ih ⟨s.extracted ++ [⟨s.frame_count, pyInt ((s.frame_count : ℚ) / fps * 1000),
                  frameFilename s.frame_count,
                  pyInt (calculate_frame_difference (s.prev.getD []) f)⟩],
                some f, s.frame_count + 1, (s.frame_count : ℤ)⟩
                hchain2 hbd2 hhd2 ?_ l h
              simp
        · exact ih ⟨s.extracted, s.prev, s.frame_count + 1, s.last_extracted⟩
            hch hbd hhd (by simpa [h0] using hlast) l h

theorem selLoop_low_score_not_emitted (fps threshold : ℚ) (minI maxF : ℤ)
    (F : List Frame) :
    ∀ (rest : List Frame) (s : LoopState),
      F.drop s.frame_count = rest →
      (∀ r ∈ s.extracted, r.frame_number < s.frame_count) →
      ∀ b i, Event.score b i ∈ (selLoop fps threshold minI maxF rest s).2 →
        calculate_frame_difference b (F.getD i []) < threshold →
        ∀ l, (selLoop fps threshold minI maxF rest s).1 = .ok l →
          ∀ r ∈ l, r.frame_number ≠ i := by
  intro rest
  induction rest with
  | nil =>
    intro s hdrop hfn b i hmem
    simp [selLoop] at hmem
  | cons f t ih =>
    intro s hdrop hfn b i hmem hlow l h r hr
    obtain ⟨hget, hdrop1⟩ := drop_cons_facts F s.frame_count f t hdrop
    by_cases h0 : s.frame_count = 0
    · by_cases hf : fps = 0
      · simp only [selLoop, if_pos h0, if_pos hf] at hmem
        simp at hmem
      · simp only [selLoop, if_pos h0, if_neg hf] at hmem h
        simp only [List.mem_cons] at hmem
        rcases hmem with hx | hx | hx
        · exact absurd hx (by simp)
        · exact absurd hx (by simp)
        · refine ih ⟨s.extracted ++ [⟨s.frame_count,
              pyInt ((s.frame_count : ℚ) / fps * 1000),
              frameFilename s.frame_count, 0⟩],
            some f, s.frame_count + 1, (s.frame_count : ℤ)⟩
            hdrop1 ?_ b i hx hlow l h r hr
          intro r2 hr2
          rcases List.mem_append.mp hr2 with h2 | h2
          · have := hfn r2 h2
            simp only
            omega
          · simp at h2
            subst h2
            simp
    · by_cases hcool : (s.frame_count : ℤ) - s.last_extracted < minI
      · simp only [selLoop, if_neg h0, if_pos hcool] at hmem h
        refine ih ⟨s.extracted, s.prev, s.frame_count + 1, s.last_extracted⟩
          hdrop1 ?_ b i hmem hlow l h r hr
        intro r2 hr2
        have := hfn r2 hr2
        simp only
        omega
      · by_cases hthr : threshold ≤ calculate_frame_difference (s.prev.getD []) f
        · by_cases hf : fps = 0
          · simp only [selLoop, if_neg h0, if_neg hcool, if_pos hthr, if_pos hf] at h
            simp at h
          · simp only [selLoop, if_neg h0, if_neg hcool, if_pos hthr, if_neg hf]
              at hmem h
            by_cases hmax : maxF ≤ ((s.extracted ++ [(⟨s.frame_count,
                pyInt ((s.frame_count : ℚ) / fps * 1000),
                frameFilename s.frame_count,
                pyInt (calculate_frame_difference (s.prev.getD []) f)⟩ : SelRecord)]).length : ℤ)
            · rw [if_pos hmax] at hmem
              simp only [List.mem_cons] at hmem
              rcases hmem with hx | hx
              · obtain ⟨hb, hi⟩ := Event.score.inj hx
                subst hb
                subst hi
                rw [hget] at hlow
                exact absurd hthr (not_le.mpr hlow)
              · rcases hx with hx | hx
                · exact absurd hx (by simp)
                · rcases hx with hx | hx
                  · exact absurd hx (by simp)
                  · simp at hx
            · rw [if_neg hmax] at hmem h
              simp only [List.mem_cons] at hmem
              rcases hmem with hx | hx
              · obtain ⟨hb, hi⟩ := Event.score.inj hx
                subst hb
                subst hi
                rw [hget] at hlow
                exact absurd hthr (not_le.mpr hlow)
              · rcases hx with hx | hx
                · exact absurd hx (by simp)
                · rcases hx with hx | hx
                  · exact absurd hx (by simp)
                  · refine ih ⟨s.extracted ++ [⟨s.frame_count,
                        pyInt ((s.frame_count : ℚ) / fps * 1000),
                        frameFilename s.frame_count,
                        pyInt (calculate_frame_difference (s.prev.getD []) f)⟩],
                      some f, s.frame_count + 1, (s.frame_count : ℤ)⟩
                      hdrop1 ?_ b i hx hlow l h r hr
                    intro r2 hr2
                    rcases List.mem_append.mp hr2 with h2 | h2
                    · have := hfn r2 h2
                      simp only
                      omega
                    · simp at h2
                      subst h2
                      simp
        · simp only [selLoop, if_neg h0, if_neg hcool, if_neg hthr] at hmem h
          simp only [List.mem_cons] at hmem
          rcases hmem with hx | hx
          · obtain ⟨hb, hi⟩ := Event.score.inj hx
            subst hb
            subst hi
            rcases selLoop_ok_mem fps threshold minI maxF t
              ⟨s.extracted, s.prev, s.frame_count + 1, s.last_extracted⟩ l h r hr
              with hin | hge
            · have := hfn r hin
              omega
            · simp only at hge
              omega
          · refine ih ⟨s.extracted, s.prev, s.frame_count + 1, s.last_extracted⟩
              hdrop1 ?_ b i hx hlow l h r hr
            intro r2 hr2
            have := hfn r2 hr2
            simp only
            omega

theorem baselineChk_append_release (F : List Frame) :
    ∀ (evs : List Event) (cur : Frame),
      baselineChk F cur (evs ++ [.release]) = baselineChk F cur evs := by
  intro evs
  induction evs with
  | nil => intro cur; simp [baselineChk]
  | cons e t ih => intro cur; cases e <;> simp [baselineChk, ih]

theorem spacingChk_append_release (minI : ℤ) :
    ∀ (evs : List Event) (last : ℤ),
      spacingChk minI last (evs ++ [.release]) = spacingChk minI last evs := by
  intro evs
  induction evs with
  | nil => intro last; simp [spacingChk]
  | cons e t ih => intro last; cases e <;> simp [spacingChk, ih]

theorem countRelease_append_release :
    ∀ evs : List Event, countRelease (evs ++ [.release]) = countRelease evs + 1 := by
  intro evs
  induction evs with
  | nil => simp [countRelease]
  | cons e t ih => cases e <;> simp [countRelease, ih]

theorem selLoop_first_record (fps threshold : ℚ) (minI maxF : ℤ)
    (hfps : fps ≠ 0) (f : Frame) (t : List Frame) :
    ∃ suf, (selLoop fps threshold minI maxF (f :: t) ⟨[], none, 0, -minI⟩).1
      = .ok (⟨0, 0, frameFilename 0, 0⟩ :: suf) := by
  have hts : pyInt (((0 : ℕ) : ℚ) / fps * 1000) = 0 := by
    norm_num [pyInt]
  obtain ⟨l, hl⟩ := selLoop_ok_of_fps_ne fps threshold minI maxF hfps t
    ⟨[⟨0, pyInt (((0 : ℕ) : ℚ) / fps * 1000), frameFilename 0, 0⟩], some f, 1, 0⟩
  obtain ⟨suf, hsuf⟩ := selLoop_ok_extends fps threshold minI maxF t _ l hl
  refine ⟨suf, ?_⟩
  have step : (selLoop fps threshold minI maxF (f :: t) ⟨[], none, 0, -minI⟩).1
      = (selLoop fps threshold minI maxF t
          ⟨[⟨0, pyInt (((0 : ℕ) : ℚ) / fps * 1000), frameFilename 0, 0⟩],
            some f, 1, 0⟩).1 := by
    simp only [selLoop]
    rw [if_pos trivial, if_neg hfps]
    rfl
  rw [step, hl, hsuf]
  simp only [List.singleton_append]
  rw [hts]

/-! ### Concrete inputs used by witnesses and counterexamples -/

/-- A one-pixel black frame. -/
def blackFrame : Frame := [(0, 0, 0)]

/-- A one-pixel white frame. -/
def whiteFrame : Frame := [(255, 255, 255)]

/-- A 30 fps video whose two frames are black then white. -/
def vBW : Video := ⟨true, 30, [blackFrame, whiteFrame]⟩

/-- Policy with `threshold = 5`, `min_interval = 1`, `max_frames = 1`. -/
def pMax1 : Params := ⟨5, 1, 1⟩

/-- A 30 fps video whose two frames are both black (no change). -/
def vLow : Video := ⟨true, 30, [blackFrame, blackFrame]⟩

/-- Policy with `threshold = 5`, `min_interval = 1`, `max_frames = 100`. -/
def pLow : Params := ⟨5, 1, 100⟩

/-- An openable video that yields no frames at all. -/
def vEmpty : Video := ⟨true, 30, []⟩

/-- The script's default policy: threshold 5.0, min_interval 30, max_frames 100. -/
def pDefault : Params := ⟨5, 30, 100⟩

/-- A video source that cannot be opened. -/
def vUnopen : Video := ⟨false, 30, []⟩

/-- An openable, nonempty video whose decoder reports fps = 0. -/
def vZeroFps : Video := ⟨true, 0, [blackFrame]⟩

/-! ### Claims -/

/-- Claim C2 (code evaluation): with `max_frames = 1` on a
multi-keyframe-eligible video, the returned list has TWO records, not
one: the first frame is appended without any max-frames check, so the
bound `length ≤ max_frames` fails for `max_frames = 1`.  On the
black-then-white two-frame video with `min_interval = 1` the run
returns records for frame 0 and frame 1 and only then breaks. -/
theorem claim_C2_max_frames_exceeded :
    (extract_key_frames vBW pMax1).1
      = .ok [⟨0, 0, frameFilename 0, 0⟩, ⟨1, 33, frameFilename 1, 100⟩]
    ∧ pMax1.max_frames = 1 := by
  constructor
  · with_unfolding_all rfl
  · rfl

/-- Claim C3 (counterexample): an openable video with zero frames is NOT
fatal: `extract_key_frames` returns the empty list and `main` prints the
empty JSON array and exits 0, contradicting "aborts before any output
... non-zero status" for the totally-empty case. -/
theorem claim_C3_counterexample :
    (extract_key_frames vEmpty pDefault).1 = .ok [] ∧
    mainRun vEmpty pDefault = (some [], 0) := by
  constructor
  · with_unfolding_all rfl
  · with_unfolding_all rfl

/-- Claim C3 (amended): an unopenable video source is a fatal error —
no record list, no JSON, exit status 1 — while an openable video that
yields zero frames succeeds with the empty list, the empty JSON array
and exit status 0. -/
theorem claim_C3_amended (v : Video) (P : Params) :
    (v.opened = false →
      (extract_key_frames v P).1 = .error .cannotOpen ∧ mainRun v P = (none, 1)) ∧
    (v.opened = true → v.frames = [] →
      (extract_key_frames v P).1 = .ok [] ∧ mainRun v P = (some [], 0)) := by
  constructor
  · intro hop
    have h1 : (extract_key_frames v P).1 = .error .cannotOpen := by
      simp [extract_key_frames, hop]
    exact ⟨h1, by simp [mainRun, h1]⟩
  · intro hop hfr
    have h1 : (extract_key_frames v P).1 = .ok [] := by
      simp [extract_key_frames, hop, hfr, selLoop]
    exact ⟨h1, by simp [mainRun, h1]⟩

/-- Claim C3 (amended, witness): both branches instantiated, at the
unopenable source and at the empty openable video. -/
theorem claim_C3_amended_witness :
    ((extract_key_frames vUnopen pDefault).1 = .error .cannotOpen ∧
      mainRun vUnopen pDefault = (none, 1)) ∧
    ((extract_key_frames vEmpty pDefault).1 = .ok [] ∧
      mainRun vEmpty pDefault = (some [], 0)) :=
  ⟨(claim_C3_amended vUnopen pDefault).1 rfl,
   (claim_C3_amended vEmpty pDefault).2 rfl rfl⟩

/-- Claim C4 (counterexample): on the cannot-open path the function
raises before `cap.release()` is ever reached, so the decode handle is
NOT released on that exit path: the trace holds zero release events. -/
theorem claim_C4_counterexample :
    (extract_key_frames vUnopen pDefault).1 = .error .cannotOpen ∧
    countRelease (extract_key_frames vUnopen pDefault).2 = 0 := by
  constructor
  · with_unfolding_all rfl
  · with_unfolding_all rfl

/-- Claim C8: the difference scorer is symmetric in its arguments —
the per-pixel difference is an absolute value, so swapping the two
equally-shaped frames leaves the score unchanged (and the scorer is a
pure function, hence deterministic). -/
theorem claim_C8_score_symmetric (f1 f2 : Frame) (hlen : f1.length = f2.length) :
    calculate_frame_difference f1 f2 = calculate_frame_difference f2 f1 :=
  calculate_frame_difference_comm f1 f2

/-- Claim C8 (witness): symmetry instantiated on the black and white
one-pixel frames. -/
theorem claim_C8_score_symmetric_witness :
    calculate_frame_difference blackFrame whiteFrame
      = calculate_frame_difference whiteFrame blackFrame :=
  claim_C8_score_symmetric blackFrame whiteFrame rfl

/-- Claim C9: when the decoder reports fps = 0 for an openable video
with at least one frame, the first record's timestamp computation
divides by zero, the function propagates the exception (no record list),
and `main` prints no JSON and exits 1. -/
theorem claim_C9_fps_zero (v : Video) (P : Params)
    (hop : v.opened = true) (hne : v.frames ≠ []) (hfps : v.fps = 0) :
    (extract_key_frames v P).1 = .error .zeroDivision ∧
    mainRun v P = (none, 1) := by
  rcases hfr : v.frames with _ | ⟨f, t⟩
  · exact absurd hfr hne
  · have h1 : (extract_key_frames v P).1 = .error .zeroDivision := by
      simp [extract_key_frames, hop, hfr, selLoop, hfps]
    exact ⟨h1, by simp [mainRun, h1]⟩

/-- Claim C9 (witness): the fps-0 failure on a concrete one-frame video. -/
theorem claim_C9_fps_zero_witness :
    (extract_key_frames vZeroFps pDefault).1 = .error .zeroDivision ∧
    mainRun vZeroFps pDefault = (none, 1) :=
  claim_C9_fps_zero vZeroFps pDefault rfl (by simp [vZeroFps]) rfl

/-- Claim C5 (amended): every video that opens, yields at least one
frame, and reports a nonzero fps emits the first decoded frame
unconditionally, whatever the threshold: the returned list starts with
the record `frame_number = 0`, `diff_score = 0`.  (With fps = 0 the
run raises instead and returns no list; see the counterexample.) -/
theorem claim_C5_first_frame (v : Video) (P : Params)
    (hop : v.opened = true) (hne : v.frames ≠ []) (hfps : v.fps ≠ 0) :
    ∃ suf, (extract_key_frames v P).1
      = .ok (⟨0, 0, frameFilename 0, 0⟩ :: suf) := by
  rcases hfr : v.frames with _ | ⟨f, t⟩
  · exact absurd hfr hne
  · obtain ⟨suf, hsel⟩ := selLoop_first_record v.fps P.threshold P.min_interval
      P.max_frames hfps f t
    refine ⟨suf, ?_⟩
    simp [extract_key_frames, hop, hfr, hsel]

/-- Claim C5 (witness): the first-frame record on a concrete two-frame
video with a high threshold (no later selection). -/
theorem claim_C5_first_frame_witness :
    ∃ suf, (extract_key_frames vLow pLow).1
      = .ok (⟨0, 0, frameFilename 0, 0⟩ :: suf) :=
  claim_C5_first_frame vLow pLow rfl (by simp [vLow]) (by norm_num [vLow])

/-- Claim C10: `os.makedirs` runs before `cv2.VideoCapture`, so the
trace of every run starts with the directory creation and then the
open; in particular on an unopenable video the function still creates
the output directory before raising, and those are the only two
effects of that run. -/
theorem claim_C10_makedirs_before_open (v : Video) (P : Params) :
    (∃ t2, (extract_key_frames v P).2 = .makedirs :: .openVideo :: t2) ∧
    (v.opened = false →
      (extract_key_frames v P).1 = .error .cannotOpen ∧
      (extract_key_frames v P).2 = [.makedirs, .openVideo]) := by
  constructor
  · by_cases hop : v.opened = true
    · rcases hout : (selLoop v.fps P.threshold P.min_interval P.max_frames v.frames
          ⟨[], none, 0, -P.min_interval⟩).1 with e | l2
      · refine ⟨(selLoop v.fps P.threshold P.min_interval P.max_frames v.frames
          ⟨[], none, 0, -P.min_interval⟩).2, ?_⟩
        simp [extract_key_frames, hop, hout]
      · refine ⟨(selLoop v.fps P.threshold P.min_interval P.max_frames v.frames
          ⟨[], none, 0, -P.min_interval⟩).2 ++ [.release], ?_⟩
        simp [extract_key_frames, hop, hout]
    · refine ⟨[], ?_⟩
      simp [extract_key_frames, hop]
  · intro hop
    constructor <;> simp [extract_key_frames, hop]

/-- Claim C10 (witness): directory creation precedes the failed open on
the unopenable source. -/
theorem claim_C10_makedirs_before_open_witness :
    (extract_key_frames vUnopen pDefault).1 = .error .cannotOpen ∧
    (extract_key_frames vUnopen pDefault).2 = [.makedirs, .openVideo] :=
  (claim_C10_makedirs_before_open vUnopen pDefault).2 rfl

theorem extract_ok_selLoop (v : Video) (P : Params) (l : List SelRecord)
    (h : (extract_key_frames v P).1 = .ok l) :
    v.opened = true ∧
    (selLoop v.fps P.threshold P.min_interval P.max_frames v.frames
      ⟨[], none, 0, -P.min_interval⟩).1 = .ok l := by
  by_cases hop : v.opened = true
  · rcases hout : (selLoop v.fps P.threshold P.min_interval P.max_frames v.frames
        ⟨[], none, 0, -P.min_interval⟩).1 with e | l2
    · simp [extract_key_frames, hop, hout] at h
    · simp [extract_key_frames, hop, hout] at h
      exact ⟨hop, congrArg Except.ok h⟩
  · simp [extract_key_frames, hop] at h

/-- Claim C4 (amended): the decode handle is released exactly once on
every normal-completion path (input exhausted or max-frames break), and
zero times on every exceptional path: the cannot-open raise and the
fps-0 ZeroDivisionError both skip `cap.release()`, which has no
try/finally around it. -/
theorem claim_C4_amended (v : Video) (P : Params) :
    (∀ l, (extract_key_frames v P).1 = .ok l →
      countRelease (extract_key_frames v P).2 = 1) ∧
    (∀ e, (extract_key_frames v P).1 = .error e →
      countRelease (extract_key_frames v P).2 = 0) := by
  by_cases hop : v.opened = true
  · rcases hout : (selLoop v.fps P.threshold P.min_interval P.max_frames v.frames
        ⟨[], none, 0, -P.min_interval⟩).1 with e2 | l2
    · constructor
      · intro l h
        simp [extract_key_frames, hop, hout] at h
      · intro e h
        have htr : (extract_key_frames v P).2 = .makedirs :: .openVideo ::
            (selLoop v.fps P.threshold P.min_interval P.max_frames v.frames
              ⟨[], none, 0, -P.min_interval⟩).2 := by
          simp [extract_key_frames, hop, hout]
        rw [htr]
        simp [countRelease, selLoop_no_release]
    · constructor
      · intro l h
        have htr : (extract_key_frames v P).2 = .makedirs :: .openVideo ::
            ((selLoop v.fps P.threshold P.min_interval P.max_frames v.frames
              ⟨[], none, 0, -P.min_interval⟩).2 ++ [.release]) := by
          simp [extract_key_frames, hop, hout]
        rw [htr]
        simp [countRelease, countRelease_append_release, selLoop_no_release]
      · intro e h
        simp [extract_key_frames, hop, hout] at h
  · constructor
    · intro l h
      simp [extract_key_frames, hop] at h
    · intro e h
      have htr : (extract_key_frames v P).2 = [.makedirs, .openVideo] := by
        simp [extract_key_frames, hop]
      rw [htr]
      simp [countRelease]

/-- Claim C4 (amended, witness): one release on a normal run. -/
theorem claim_C4_amended_witness :
    countRelease (extract_key_frames vLow pLow).2 = 1 :=
  (claim_C4_amended vLow pLow).1 [⟨0, 0, frameFilename 0, 0⟩]
    (by with_unfolding_all rfl)

/-- Claim C1: the scorer is always called with the baseline frame set at
the last selection as its first argument — in the trace, every `score`
event's baseline equals the frame of the most recent `emit` — and a
frame that scores below the threshold is not emitted (no record carries
its index), so the baseline can only be reassigned when a frame is
selected. -/
theorem claim_C1_baseline_policy (v : Video) (P : Params) :
    baselineChk v.frames [] (extract_key_frames v P).2 = true ∧
    (∀ b i, Event.score b i ∈ (extract_key_frames v P).2 →
      calculate_frame_difference b (v.frames.getD i []) < P.threshold →
      ∀ l, (extract_key_frames v P).1 = .ok l →
        ∀ r ∈ l, r.frame_number ≠ i) := by
  constructor
  · by_cases hop : v.opened = true
    · rcases hout : (selLoop v.fps P.threshold P.min_interval P.max_frames v.frames
          ⟨[], none, 0, -P.min_interval⟩).1 with e | l2
      · have htr : (extract_key_frames v P).2 = .makedirs :: .openVideo ::
            (selLoop v.fps P.threshold P.min_interval P.max_frames v.frames
              ⟨[], none, 0, -P.min_interval⟩).2 := by
          simp [extract_key_frames, hop, hout]
        rw [htr]
        simp only [baselineChk]
        exact selLoop_baselineChk v.fps P.threshold P.min_interval P.max_frames
          v.frames v.frames ⟨[], none, 0, -P.min_interval⟩ rfl
      · have htr : (extract_key_frames v P).2 = .makedirs :: .openVideo ::
            ((selLoop v.fps P.threshold P.min_interval P.max_frames v.frames
              ⟨[], none, 0, -P.min_interval⟩).2 ++ [.release]) := by
          simp [extract_key_frames, hop, hout]
        rw [htr]
        simp only [baselineChk]
        rw [baselineChk_append_release]
        exact selLoop_baselineChk v.fps P.threshold P.min_interval P.max_frames
          v.frames v.frames ⟨[], none, 0, -P.min_interval⟩ rfl
    · have htr : (extract_key_frames v P).2 = [.makedirs, .openVideo] := by
        simp [extract_key_frames, hop]
      rw [htr]
      simp [baselineChk]
  · intro b i hmem hlow l h
    obtain ⟨hop, hsel⟩ := extract_ok_selLoop v P l h
    have hmem2 : Event.score b i ∈ (selLoop v.fps P.threshold P.min_interval
        P.max_frames v.frames ⟨[], none, 0, -P.min_interval⟩).2 := by
      rcases hout : (selLoop v.fps P.threshold P.min_interval P.max_frames v.frames
          ⟨[], none, 0, -P.min_interval⟩).1 with e | l2
      · rw [hout] at hsel
        simp at hsel
      · have htr : (extract_key_frames v P).2 = .makedirs :: .openVideo ::
            ((selLoop v.fps P.threshold P.min_interval P.max_frames v.frames
              ⟨[], none, 0, -P.min_interval⟩).2 ++ [.release]) := by
          simp [extract_key_frames, hop, hout]
        rw [htr] at hmem
        simp at hmem
        exact hmem
    exact selLoop_low_score_not_emitted v.fps P.threshold P.min_interval
      P.max_frames v.frames v.frames ⟨[], none, 0, -P.min_interval⟩ rfl
      (by simp) b i hmem2 hlow l hsel

/-- Claim C1 (witness): on the black-black video the second frame is
scored against the frame-0 baseline, scores 0 < 5, and is not emitted:
the only record keeps frame number 0 ≠ 1. -/
theorem claim_C1_baseline_policy_witness :
    baselineChk vLow.frames [] (extract_key_frames vLow pLow).2 = true ∧
    ∀ r ∈ [(⟨0, 0, frameFilename 0, 0⟩ : SelRecord)], r.frame_number ≠ 1 :=
  ⟨(claim_C1_baseline_policy vLow pLow).1,
   (claim_C1_baseline_policy vLow pLow).2 blackFrame 1
     (by with_unfolding_all decide)
     (by with_unfolding_all decide)
     [⟨0, 0, frameFilename 0, 0⟩]
     (by with_unfolding_all rfl)⟩

/-- Claim C6: consecutive emitted records are at least `min_interval`
frames apart, and no frame whose index is within `min_interval` of the
last selection is ever passed to the difference scorer (every `score`
event in the trace is at least `min_interval` past the most recent
`emit`; the initial allowance is the code's
`last_extracted_frame = -min_interval`). -/
theorem claim_C6_min_interval (v : Video) (P : Params) :
    spacingChk P.min_interval (-P.min_interval) (extract_key_frames v P).2 = true ∧
    (∀ l, (extract_key_frames v P).1 = .ok l →
      List.Chain' (recGap P.min_interval) l) := by
  constructor
  · by_cases hop : v.opened = true
    · rcases hout : (selLoop v.fps P.threshold P.min_interval P.max_frames v.frames
          ⟨[], none, 0, -P.min_interval⟩).1 with e | l2
      · have htr : (extract_key_frames v P).2 = .makedirs :: .openVideo ::
            (selLoop v.fps P.threshold P.min_interval P.max_frames v.frames
              ⟨[], none, 0, -P.min_interval⟩).2 := by
          simp [extract_key_frames, hop, hout]
        rw [htr]
        simp only [spacingChk]
        exact selLoop_spacingChk v.fps P.threshold P.min_interval P.max_frames
          v.frames ⟨[], none, 0, -P.min_interval⟩
      · have htr : (extract_key_frames v P).2 = .makedirs :: .openVideo ::
            ((selLoop v.fps P.threshold P.min_interval P.max_frames v.frames
              ⟨[], none, 0, -P.min_interval⟩).2 ++ [.release]) := by
          simp [extract_key_frames, hop, hout]
        rw [htr]
        simp only [spacingChk]
        rw [spacingChk_append_release]
        exact selLoop_spacingChk v.fps P.threshold P.min_interval P.max_frames
          v.frames ⟨[], none, 0, -P.min_interval⟩
    · have htr : (extract_key_frames v P).2 = [.makedirs, .openVideo] := by
        simp [extract_key_frames, hop]
      rw [htr]
      simp [spacingChk]
  · intro l h
    obtain ⟨hop, hsel⟩ := extract_ok_selLoop v P l h
    exact (selLoop_records v.fps P.threshold P.min_interval P.max_frames v.frames
      ⟨[], none, 0, -P.min_interval⟩ (by simp) (by simp) (by simp) (by simp)
      l hsel).1

/-- Claim C6 (witness): on the black-then-white video with
`min_interval = 1` and a large `max_frames`, the run selects frames 0
and 1; their gap satisfies the interval, and the trace spacing check
holds. -/
theorem claim_C6_min_interval_witness :
    spacingChk pLow.min_interval (-pLow.min_interval)
      (extract_key_frames ⟨true, 30, [blackFrame, whiteFrame]⟩ pLow).2 = true ∧
    List.Chain' (recGap pLow.min_interval)
      [(⟨0, 0, frameFilename 0, 0⟩ : SelRecord), ⟨1, 33, frameFilename 1, 100⟩] :=
  ⟨(claim_C6_min_interval ⟨true, 30, [blackFrame, whiteFrame]⟩ pLow).1,
   (claim_C6_min_interval ⟨true, 30, [blackFrame, whiteFrame]⟩ pLow).2
     [⟨0, 0, frameFilename 0, 0⟩, ⟨1, 33, frameFilename 1, 100⟩]
     (by with_unfolding_all rfl)⟩

/-- Claim C7: for equally-shaped nonempty frames the scorer's value lies
in the closed range [0, 100] with identical frames scoring 0; Python's
`int()` truncation agrees with the floor on these nonnegative values,
and every record a run emits carries an integer `diff_score` in
[0, 100]. -/
theorem claim_C7_score_range (f1 f2 : Frame)
    (hlen : f1.length = f2.length) (hne : f1 ≠ []) :
    (0 ≤ calculate_frame_difference f1 f2 ∧
      calculate_frame_difference f1 f2 ≤ 100) ∧
    calculate_frame_difference f1 f1 = 0 ∧
    (∀ q : ℚ, 0 ≤ q → pyInt q = ⌊q⌋) ∧
    (∀ (v : Video) (P : Params) (l : List SelRecord),
      (extract_key_frames v P).1 = .ok l →
      ∀ r ∈ l, 0 ≤ r.diff_score ∧ r.diff_score ≤ 100) := by
  refine ⟨⟨calculate_frame_difference_nonneg f1 f2,
      calculate_frame_difference_le_100 f1 f2⟩,
    calculate_frame_difference_self f1,
    fun q hq => pyInt_eq_floor_of_nonneg hq, ?_⟩
  intro v P l h r hr
  obtain ⟨hop, hsel⟩ := extract_ok_selLoop v P l h
  exact (selLoop_records v.fps P.threshold P.min_interval P.max_frames v.frames
    ⟨[], none, 0, -P.min_interval⟩ (by simp) (by simp) (by simp) (by simp)
    l hsel).2.1 r hr

/-- Claim C7 (witness): instantiated at the equally-shaped nonempty
black and white one-pixel frames. -/
theorem claim_C7_score_range_witness :
    (0 ≤ calculate_frame_difference blackFrame whiteFrame ∧
      calculate_frame_difference blackFrame whiteFrame ≤ 100) ∧
    calculate_frame_difference blackFrame blackFrame = 0 ∧
    (∀ q : ℚ, 0 ≤ q → pyInt q = ⌊q⌋) ∧
    (∀ (v : Video) (P : Params) (l : List SelRecord),
      (extract_key_frames v P).1 = .ok l →
      ∀ r ∈ l, 0 ≤ r.diff_score ∧ r.diff_score ≤ 100) :=
  claim_C7_score_range blackFrame whiteFrame rfl (by simp [blackFrame])

/-- Claim C5 (counterexample): a video that opens and yields one frame
but whose decoder reports fps = 0 produces NO output list at all — the
timestamp computation raises before the first record is appended — so
the claim's "first record of the output list" does not exist for this
opening, nonempty video. -/
theorem claim_C5_counterexample :
    (extract_key_frames vZeroFps pDefault).1 = .error .zeroDivision ∧
    ∀ l, (extract_key_frames vZeroFps pDefault).1 ≠ .ok l := by
  have h1 : (extract_key_frames vZeroFps pDefault).1 = .error .zeroDivision := by
    with_unfolding_all rfl
  refine ⟨h1, ?_⟩
  intro l h
  rw [h1] at h
  simp at h
